import Mathlib

/-!
Verification of the hierarchical document segmentation engine.

Shallow embedding of `services/chunker.py`, the style-mapping construction in
`routes/documents.py`, and the hierarchy-tree reconstruction in
`models/chunk.py`, together with proofs of the specification claims.

Machine-level conventions: Python integers are unbounded, so they are embedded
as `Int` (or `Nat` where the source value is provably non-negative); Python
string indexing/slicing works on code points, matching Lean `String.length` /
`String.take`; `hashlib.sha256(...).hexdigest()` is embedded as a full
executable SHA-256 (FIPS 180-4) over the UTF-8 bytes of the content, with
32-bit words represented as `Nat` reduced modulo `2 ^ 32`.
-/

namespace BfnAI

/-- A paragraph as produced by the document parser: text plus a style name. -/
structure Para where
  text : String
  style : String
  deriving DecidableEq, Repr, Inhabited

/-- A style configuration record, as stored in the style mapping passed to
`chunk_document`: `{headingLevel, isBodyText, isIgnored}`. `headingLevel` is
`Option Int` because Python uses `None` for body styles. -/
structure StyleConfig where
  headingLevel : Option Int
  isBodyText : Bool
  isIgnored : Bool
  deriving DecidableEq, Repr, Inhabited

/-- An entry of the hierarchy stack: `{name, level}`. -/
structure HEntry where
  name : String
  level : Int
  deriving DecidableEq, Repr, Inhabited

/-- The chunk record emitted by `flush_chunk` in `chunker.py`. -/
structure Chunk where
  chunkIndex : Nat
  content : String
  contentLength : Nat
  tokenEstimate : Nat
  hierarchyPath : String
  hierarchyJson : List HEntry
  hierarchyLevel : Option Int
  paragraphStart : Nat
  paragraphEnd : Int
  chunkHash : String
  deriving DecidableEq, Repr, Inhabited

/-! ## SHA-256 (model of `hashlib.sha256(content.encode()).hexdigest()`) -/

/-- UTF-8 encoding of a single code point, as `str.encode()` produces. -/
def utf8EncodeCharBytes (c : Char) : List Nat :=
  let n := c.toNat
  if n < 0x80 then [n]
  else if n < 0x800 then
    [0xC0 ||| (n >>> 6), 0x80 ||| (n &&& 0x3F)]
  else if n < 0x10000 then
    [0xE0 ||| (n >>> 12), 0x80 ||| ((n >>> 6) &&& 0x3F), 0x80 ||| (n &&& 0x3F)]
  else
    [0xF0 ||| (n >>> 18), 0x80 ||| ((n >>> 12) &&& 0x3F),
     0x80 ||| ((n >>> 6) &&& 0x3F), 0x80 ||| (n &&& 0x3F)]

/-- UTF-8 bytes of a string (`content.encode()` in Python). -/
def utf8Bytes (s : String) : List Nat :=
  s.data.flatMap utf8EncodeCharBytes

/-- Right rotation of a 32-bit word represented as a `Nat < 2 ^ 32`. -/
def rotr32 (n x : Nat) : Nat :=
  (x >>> n) ||| ((x <<< (32 - n)) % 2 ^ 32)

def shaCh (x y z : Nat) : Nat := (x &&& y) ^^^ ((x ^^^ 0xffffffff) &&& z)

def shaMaj (x y z : Nat) : Nat := (x &&& y) ^^^ (x &&& z) ^^^ (y &&& z)

def bigSigma0 (x : Nat) : Nat := rotr32 2 x ^^^ rotr32 13 x ^^^ rotr32 22 x

def bigSigma1 (x : Nat) : Nat := rotr32 6 x ^^^ rotr32 11 x ^^^ rotr32 25 x

def smallSigma0 (x : Nat) : Nat := rotr32 7 x ^^^ rotr32 18 x ^^^ (x >>> 3)

def smallSigma1 (x : Nat) : Nat := rotr32 17 x ^^^ rotr32 19 x ^^^ (x >>> 10)

/-- The eight-word SHA-256 working state. -/
structure H8 where
  a : Nat
  b : Nat
  c : Nat
  d : Nat
  e : Nat
  f : Nat
  g : Nat
  h : Nat
  deriving DecidableEq, Repr

/-- SHA-256 initial hash value. -/
def shaInit : H8 :=
  ⟨1779033703, 3144134277, 1013904242, 2773480762,
   1359893119, 2600822924, 528734635, 1541459225⟩

/-- SHA-256 round constants. -/
def shaK : List Nat :=
  [1116352408, 1899447441, 3049323471, 3921009573, 961987163,
   1508970993, 2453635748, 2870763221, 3624381080, 310598401,
   607225278, 1426881987, 1925078388, 2162078206, 2614888103,
   3248222580, 3835390401, 4022224774, 264347078, 604807628,
   770255983, 1249150122, 1555081692, 1996064986, 2554220882,
   2821834349, 2952996808, 3210313671, 3336571891, 3584528711,
   113926993, 338241895, 666307205, 773529912, 1294757372,
   1396182291, 1695183700, 1986661051, 2177026350, 2456956037,
   2730485921, 2820302411, 3259730800, 3345764771, 3516065817,
   3600352804, 4094571909, 275423344, 430227734, 506948616,
   659060556, 883997877, 958139571, 1322822218, 1537002063,
   1747873779, 1955562222, 2024104815, 2227730452, 2361852424,
   2428436474, 2756734187, 3204031479, 3329325298]

/-- One SHA-256 compression round applied to the working state. -/
def shaRound (s : H8) (k w : Nat) : H8 :=
  let t1 := (s.h + bigSigma1 s.e + shaCh s.e s.f s.g + k + w) % 2 ^ 32
  let t2 := (bigSigma0 s.a + shaMaj s.a s.b s.c) % 2 ^ 32
  ⟨(t1 + t2) % 2 ^ 32, s.a, s.b, s.c, (s.d + t1) % 2 ^ 32, s.e, s.f, s.g⟩

/-- Extend the 16 block words by `t` further schedule words. -/
def extendW (w : List Nat) : Nat → List Nat
  | 0 => w
  | t + 1 =>
    extendW (w ++ [(smallSigma1 (w.getD (w.length - 2) 0) + w.getD (w.length - 7) 0 +
      smallSigma0 (w.getD (w.length - 15) 0) + w.getD (w.length - 16) 0) % 2 ^ 32]) t

/-- The 16 big-endian 32-bit words of a 64-byte block. -/
def blockWords (block : List Nat) : List Nat :=
  (List.range 16).map (fun j =>
    (block.getD (4 * j) 0 <<< 24) ||| (block.getD (4 * j + 1) 0 <<< 16) |||
    (block.getD (4 * j + 2) 0 <<< 8) ||| block.getD (4 * j + 3) 0)

/-- SHA-256 compression of one 64-byte block into the running hash. -/
def compressBlock (hv : H8) (block : List Nat) : H8 :=
  let ws := extendW (blockWords block) 48
  let s := (ws.zip shaK).foldl (fun s p => shaRound s p.2 p.1) hv
  ⟨(hv.a + s.a) % 2 ^ 32, (hv.b + s.b) % 2 ^ 32, (hv.c + s.c) % 2 ^ 32,
   (hv.d + s.d) % 2 ^ 32, (hv.e + s.e) % 2 ^ 32, (hv.f + s.f) % 2 ^ 32,
   (hv.g + s.g) % 2 ^ 32, (hv.h + s.h) % 2 ^ 32⟩

/-- The 8-byte big-endian encoding of the bit length. -/
def lenBytes64 (n : Nat) : List Nat :=
  [(n >>> 56) % 256, (n >>> 48) % 256, (n >>> 40) % 256, (n >>> 32) % 256,
   (n >>> 24) % 256, (n >>> 16) % 256, (n >>> 8) % 256, n % 256]

/-- SHA-256 message padding: a `0x80` byte, zeros to 56 mod 64, then the
64-bit big-endian bit length. -/
def padMessage (msg : List Nat) : List Nat :=
  msg ++ [0x80] ++ List.replicate ((119 - msg.length % 64) % 64) 0 ++
    lenBytes64 (8 * msg.length)

/-- Split a byte list into `n` consecutive 64-byte blocks. -/
def toBlocksN : Nat → List Nat → List (List Nat)
  | 0, _ => []
  | n + 1, l => l.take 64 :: toBlocksN n (l.drop 64)

/-- The final SHA-256 state for a byte message: the padded message has
length a positive multiple of 64 and is compressed block by block. -/
def sha256words (msg : List Nat) : H8 :=
  (toBlocksN ((padMessage msg).length / 64) (padMessage msg)).foldl
    compressBlock shaInit

/-- Lower-case hex digit for a nibble, as `hexdigest` uses. -/
def hexChar (n : Nat) : Char :=
  if n < 10 then Char.ofNat (48 + n) else Char.ofNat (87 + n)

/-- The eight lower-case hex characters of one 32-bit word, big-endian. -/
def wordHex (w : Nat) : List Char :=
  [(w >>> 28), (w >>> 24), (w >>> 20), (w >>> 16),
   (w >>> 12), (w >>> 8), (w >>> 4), w].map (fun x => hexChar (x % 16))

/-- `hashlib.sha256(msg).hexdigest()`: 64 lower-case hex characters. -/
def sha256hexdigest (msg : List Nat) : String :=
  String.mk (wordHex (sha256words msg).a ++ wordHex (sha256words msg).b ++
    wordHex (sha256words msg).c ++ wordHex (sha256words msg).d ++
    wordHex (sha256words msg).e ++ wordHex (sha256words msg).f ++
    wordHex (sha256words msg).g ++ wordHex (sha256words msg).h)

/-- Python string slicing `s[:n]`: the first `n` code points. -/
def takeChars (s : String) (n : Nat) : String :=
  String.mk (s.data.take n)

/-- The chunk fingerprint:
`hashlib.sha256(content.encode()).hexdigest()[:16]` (chunker.py line 81). -/
def chunk_hash (content : String) : String :=
  takeChars (sha256hexdigest (utf8Bytes content)) 16

/-! ## The chunker state machine (`chunk_document` in `chunker.py`) -/

/-- `estimate_tokens` (chunker.py lines 8-10): `len(text) // 4`. -/
def estimate_tokens (text : String) : Nat :=
  text.length / 4

/-- `get_style_config` (chunker.py lines 36-42): look up the style name,
defaulting to `{headingLevel: None, isBodyText: True, isIgnored: False}`. -/
def get_style_config (style_mapping : String → Option StyleConfig)
    (style_name : String) : StyleConfig :=
  (style_mapping style_name).getD ⟨none, true, false⟩

/-- Python truthiness of the `headingLevel` value used at
`if heading_level:` (line 96): `None` and `0` are falsy, every other
integer (including `-1`) is truthy. -/
def headingLevelTruthy : Option Int → Option Int
  | none => none
  | some l => if l = 0 then none else some l

/-- `build_hierarchy_path` (chunker.py lines 44-48). -/
def build_hierarchy_path (h : List HEntry) : String :=
  if h.isEmpty then "" else String.intercalate " > " (h.map (fun e => e.name))

/-- `build_hierarchy_json` (chunker.py lines 50-52). -/
def build_hierarchy_json (h : List HEntry) : List HEntry :=
  h.map (fun e => ⟨e.name, e.level⟩)

/-- `get_hierarchy_level` (chunker.py lines 54-58): level of
`current_hierarchy[-1]`, or `None` when the stack is empty. -/
def get_hierarchy_level (h : List HEntry) : Option Int :=
  h.getLast?.map (fun e => e.level)

/-- `'\n\n'.join(p['text'] for p in ...)`. -/
def joinContent (ps : List Para) : String :=
  String.intercalate "\n\n" (ps.map (fun p => p.text))

/-- The mutable scan state of `chunk_document`: the output list `chunks`,
the stack `current_hierarchy`, the accumulation `current_chunk_paragraphs`,
and `current_chunk_start`. -/
structure ChunkerState where
  chunks : List Chunk
  hierarchy : List HEntry
  acc : List Para
  accStart : Nat
  deriving DecidableEq, Repr, Inhabited

/-- The chunk dictionary built at chunker.py lines 67-82 from the current
accumulation and hierarchy stack. -/
def mkChunk (st : ChunkerState) (para_end : Int) : Chunk :=
  let content := joinContent st.acc
  { chunkIndex := st.chunks.length,
    content := content,
    contentLength := content.length,
    tokenEstimate := estimate_tokens content,
    hierarchyPath := build_hierarchy_path st.hierarchy,
    hierarchyJson := build_hierarchy_json st.hierarchy,
    hierarchyLevel := get_hierarchy_level st.hierarchy,
    paragraphStart := st.accStart,
    paragraphEnd := para_end,
    chunkHash := chunk_hash content }

/-- `flush_chunk` (chunker.py lines 60-85): if the accumulation is non-empty,
append a chunk built from it (index = current output length, hierarchy
captured from the current stack) and clear the accumulation. -/
def flush_chunk (st : ChunkerState) (para_end : Int) : ChunkerState :=
  if st.acc.isEmpty then st
  else
    { st with
      chunks := st.chunks ++ [mkChunk st para_end],
      acc := [] }

/-- The pop loop at chunker.py lines 102-103: pop from the top (the end of
the list) every entry whose level is `≥ lvl`. -/
def popGE (h : List HEntry) (lvl : Int) : List HEntry :=
  match h with
  | [] => []
  | e :: rest =>
    let r := popGE rest lvl
    if r.isEmpty && decide (lvl ≤ e.level) then [] else e :: r

/-- The first position of the overlap window (chunker.py line 130):
`max(0, i - overlap_paragraphs + 1)`. -/
def overlapStart (overlap_paragraphs : Int) (i : Nat) : Nat :=
  (max 0 ((i : Int) - overlap_paragraphs + 1)).toNat

/-- The overlap reseed loop (chunker.py lines 129-135): re-add every
paragraph of the window `range(overlap_start, i + 1)` that is in range and
neither ignored nor heading-styled. -/
def overlapSeed (style_mapping : String → Option StyleConfig)
    (overlap_paragraphs : Int) (paragraphs : List Para) (i : Nat) : List Para :=
  (List.range' (overlapStart overlap_paragraphs i)
      (i + 1 - overlapStart overlap_paragraphs i)).filterMap
    (fun j =>
      if j < paragraphs.length then
        if !(get_style_config style_mapping (paragraphs.getD j default).style).isIgnored &&
            (headingLevelTruthy (get_style_config style_mapping
              (paragraphs.getD j default).style).headingLevel).isNone then
          some (paragraphs.getD j default)
        else none
      else none)

/-- The body of the `for i, para in enumerate(paragraphs)` loop
(chunker.py lines 87-136), for one paragraph `para` at index `i`. -/
def chunkStep (style_mapping : String → Option StyleConfig)
    (max_chunk_tokens overlap_paragraphs : Int) (paragraphs : List Para)
    (st : ChunkerState) (i : Nat) (para : Para) : ChunkerState :=
  let cfg := get_style_config style_mapping para.style
  if cfg.isIgnored then st
  else
    match headingLevelTruthy cfg.headingLevel with
    | some lvl =>
      let st1 := flush_chunk st ((i : Int) - 1)
      { st1 with
        hierarchy := popGE st1.hierarchy lvl ++ [⟨takeChars para.text 100, lvl⟩],
        acc := [para],
        accStart := i }
    | none =>
      let st1 := if st.acc.isEmpty then { st with accStart := i } else st
      let acc1 := st1.acc ++ [para]
      let current_content := joinContent acc1
      if (estimate_tokens current_content : Int) > max_chunk_tokens then
        let st2 := flush_chunk { st1 with acc := acc1 } (i : Int)
        if overlap_paragraphs > 0 && st2.acc.isEmpty then
          { st2 with
            acc := overlapSeed style_mapping overlap_paragraphs paragraphs i,
            accStart := overlapStart overlap_paragraphs i }
        else st2
      else { st1 with acc := acc1 }

/-- The enumeration loop: walk the remaining paragraphs carrying the
absolute index `i` (so `rest = paragraphs.drop i` at every call from the
top level). -/
def chunkLoop (style_mapping : String → Option StyleConfig)
    (max_chunk_tokens overlap_paragraphs : Int) (paragraphs : List Para) :
    Nat → List Para → ChunkerState → ChunkerState
  | _, [], st => st
  | i, p :: rest, st =>
    chunkLoop style_mapping max_chunk_tokens overlap_paragraphs paragraphs
      (i + 1) rest
      (chunkStep style_mapping max_chunk_tokens overlap_paragraphs paragraphs st i p)

/-- The flush after the scan (chunker.py lines 138-140): if the final
accumulation is non-empty, flush it with `para_end = len(paragraphs) - 1`. -/
def final_flush (paragraphs : List Para) (st : ChunkerState) : ChunkerState :=
  if st.acc.isEmpty then st
  else flush_chunk st ((paragraphs.length : Int) - 1)

/-- `chunk_document` (chunker.py lines 13-142). Options are passed as the
two extracted values (`maxChunkTokens`, default 500; `overlapParagraphs`,
default 1). -/
def chunk_document (paragraphs : List Para)
    (style_mapping : String → Option StyleConfig)
    (max_chunk_tokens overlap_paragraphs : Int) : List Chunk :=
  (final_flush paragraphs
    (chunkLoop style_mapping max_chunk_tokens overlap_paragraphs
      paragraphs 0 paragraphs ⟨[], [], [], 0⟩)).chunks

/-! ## Style-mapping construction from configured DB styles
(`process_document`, routes/documents.py lines 216-235) -/

/-- A configured style row as read by `get_document_styles`. -/
structure DbStyle where
  style_name : String
  is_configured : Bool
  heading_level : Option Int
  deriving DecidableEq, Repr, Inhabited

/-- One iteration of the `for style in db_styles` loop in `process_document`
(documents.py lines 220-234): a configured `heading_level == -1` row adds an
`isIgnored` entry, a configured truthy positive `heading_level` adds a
heading entry, anything else leaves the mapping unchanged. A repeated style
name overwrites the earlier entry, as Python dict assignment does. -/
def db_style_fold (m : String → Option StyleConfig) (s : DbStyle) :
    String → Option StyleConfig :=
  if s.is_configured then
    match s.heading_level with
    | some l =>
      if l = -1 then
        fun name => if name = s.style_name then some ⟨none, false, true⟩ else m name
      else if l ≠ 0 ∧ 0 < l then
        fun name => if name = s.style_name then some ⟨some l, false, false⟩ else m name
      else m
    | none => m
  else m

/-- The `if not style_mapping:` branch of `process_document`: build the
effective style mapping from the configured DB style rows. -/
def build_db_style_mapping (db_styles : List DbStyle) :
    String → Option StyleConfig :=
  db_styles.foldl db_style_fold (fun _ => none)

/-! ## Hierarchy tree reconstruction (`get_chunk_tree`, models/chunk.py
lines 171-232) -/

/-- The chunk fields `get_chunk_tree` reads from a persisted row (with the
`hierarchy_json` column already parsed into a list, empty on `NULL`). -/
structure ChunkRow where
  id : Nat
  content : String
  hierarchy : List HEntry
  token_estimate : Nat
  deriving DecidableEq, Repr, Inhabited

/-- The chunk preview attached to tree nodes (chunk.py lines 196-200). -/
structure ChunkPreview where
  id : Nat
  preview : String
  tokenEstimate : Nat
  deriving DecidableEq, Repr, Inhabited

/-- A node of the reconstructed hierarchy tree. The synthetic root carries
no level (the Python root dict has no `level` key). -/
inductive TreeNode where
  | mk (name : String) (level : Option Int) (children : List TreeNode)
      (chunks : List ChunkPreview)
  deriving Repr

def TreeNode.name : TreeNode → String
  | .mk n _ _ _ => n

def TreeNode.level : TreeNode → Option Int
  | .mk _ l _ _ => l

def TreeNode.children : TreeNode → List TreeNode
  | .mk _ _ c _ => c

def TreeNode.chunks : TreeNode → List ChunkPreview
  | .mk _ _ _ c => c

/-- `chunk_data` (chunk.py lines 196-200): id, preview (first 100 chars
plus an ellipsis when truncated), token estimate. -/
def chunkPreviewOf (c : ChunkRow) : ChunkPreview :=
  ⟨c.id,
   if c.content.length > 100 then takeChars c.content 100 ++ "..." else c.content,
   c.token_estimate⟩

/-- Walk/create the tree path for one chunk (chunk.py lines 202-230): an
empty path attaches the preview to the current node; otherwise descend into
the first child whose name equals the entry's name, creating a new child
(appended last) when none matches. -/
def insertPath (preview : ChunkPreview) : TreeNode → List HEntry → TreeNode
  | node, [] =>
    TreeNode.mk node.name node.level node.children (node.chunks ++ [preview])
  | node, e :: rest =>
    match node.children.findIdx? (fun c => c.name == e.name) with
    | some idx =>
      TreeNode.mk node.name node.level
        (node.children.set idx
          (insertPath preview (node.children.getD idx (TreeNode.mk "" none [] [])) rest))
        node.chunks
    | none =>
      TreeNode.mk node.name node.level
        (node.children ++ [insertPath preview (TreeNode.mk e.name (some e.level) [] []) rest])
        node.chunks

/-- `get_chunk_tree` (chunk.py lines 171-232) on the rows of one document,
in the retrieval order (`ORDER BY id`). -/
def get_chunk_tree (rows : List ChunkRow) : TreeNode :=
  rows.foldl (fun t r => insertPath (chunkPreviewOf r) t r.hierarchy)
    (TreeNode.mk "root" none [] [])

/-! ## Helper lemmas -/

/-- The tail part of a separator join: `sep ++ a₁ ++ sep ++ a₂ ++ ...`. -/
def tailJoin (s : String) : List String → String
  | [] => ""
  | a :: as => s ++ a ++ tailJoin s as

theorem intercalate_go_eq (s : String) :
    ∀ (l : List String) (acc : String),
      String.intercalate.go acc s l = acc ++ tailJoin s l
  | [], acc => by simp [String.intercalate.go, tailJoin]
  | a :: as, acc => by
    rw [String.intercalate.go, intercalate_go_eq s as (acc ++ s ++ a)]
    simp [tailJoin, String.append_assoc]

theorem joinContent_cons (p : Para) (ps : List Para) :
    joinContent (p :: ps) = p.text ++ tailJoin "\n\n" (ps.map (fun q => q.text)) := by
  simp [joinContent, String.intercalate, intercalate_go_eq]

theorem joinContent_single (p : Para) : joinContent [p] = p.text := by
  simp [joinContent_cons, tailJoin]

theorem joinContent_pair (p q : Para) :
    joinContent [p, q] = p.text ++ "\n\n" ++ q.text := by
  simp [joinContent_cons, tailJoin, String.append_assoc]

theorem tailJoin_append (s : String) (l1 l2 : List String) :
    tailJoin s (l1 ++ l2) = tailJoin s l1 ++ tailJoin s l2 := by
  induction l1 with
  | nil => simp [tailJoin]
  | cons a as ih => simp [tailJoin, ih, String.append_assoc]

theorem joinContent_append (a b : List Para) (ha : a ≠ []) :
    joinContent (a ++ b) =
      joinContent a ++ tailJoin "\n\n" (b.map (fun q => q.text)) := by
  cases a with
  | nil => exact absurd rfl ha
  | cons p ps =>
    rw [List.cons_append, joinContent_cons, joinContent_cons, List.map_append,
      tailJoin_append, String.append_assoc]

theorem flush_chunk_chunks (st : ChunkerState) (e : Int) :
    (flush_chunk st e).chunks =
      st.chunks ++ if st.acc.isEmpty then [] else [mkChunk st e] := by
  unfold flush_chunk
  split <;> simp_all

theorem flush_chunk_acc (st : ChunkerState) (e : Int) :
    (flush_chunk st e).acc = [] := by
  unfold flush_chunk
  split
  · exact List.isEmpty_iff.mp (by assumption)
  · rfl

theorem flush_chunk_hierarchy (st : ChunkerState) (e : Int) :
    (flush_chunk st e).hierarchy = st.hierarchy := by
  unfold flush_chunk
  split <;> rfl

theorem flush_chunk_accStart (st : ChunkerState) (e : Int) :
    (flush_chunk st e).accStart = st.accStart := by
  unfold flush_chunk
  split <;> rfl

theorem build_hierarchy_json_eq (h : List HEntry) : build_hierarchy_json h = h := by
  induction h with
  | nil => rfl
  | cons e t ih => cases e; simp_all [build_hierarchy_json]

theorem takeChars_length (s : String) (n : Nat) :
    (takeChars s n).length = min n s.length := by
  show (s.data.take n).length = min n s.data.length
  exact List.length_take n s.data

/-- An ignored paragraph (chunker.py lines 91-92) leaves the state
untouched. -/
theorem step_ignored (M : String → Option StyleConfig) (T O : Int)
    (PS : List Para) (st : ChunkerState) (i : Nat) (p : Para)
    (hig : (get_style_config M p.style).isIgnored = true) :
    chunkStep M T O PS st i p = st := by
  unfold chunkStep
  dsimp only
  simp [hig]

/-- A heading paragraph (chunker.py lines 96-112): flush under the old
hierarchy, pop/push the stack, restart the accumulation with the heading. -/
theorem step_heading (M : String → Option StyleConfig) (T O : Int)
    (PS : List Para) (st : ChunkerState) (i : Nat) (p : Para) (lvl : Int)
    (hig : (get_style_config M p.style).isIgnored = false)
    (hlvl : headingLevelTruthy (get_style_config M p.style).headingLevel = some lvl) :
    chunkStep M T O PS st i p =
      { chunks := st.chunks ++ (if st.acc.isEmpty then [] else [mkChunk st ((i : Int) - 1)]),
        hierarchy := popGE st.hierarchy lvl ++ [⟨takeChars p.text 100, lvl⟩],
        acc := [p],
        accStart := i } := by
  unfold chunkStep
  dsimp only
  simp only [hig, hlvl, Bool.false_eq_true, if_false]
  rw [flush_chunk_chunks, flush_chunk_hierarchy]

/-- A body paragraph below the size bound (chunker.py lines 114-123):
append to the accumulation, keep everything else. -/
theorem step_body_noflush (M : String → Option StyleConfig) (T O : Int)
    (PS : List Para) (st : ChunkerState) (i : Nat) (p : Para)
    (hig : (get_style_config M p.style).isIgnored = false)
    (hlvl : headingLevelTruthy (get_style_config M p.style).headingLevel = none)
    (hsz : ¬ ((estimate_tokens (joinContent (st.acc ++ [p])) : Int) > T)) :
    chunkStep M T O PS st i p =
      { st with acc := st.acc ++ [p],
                accStart := if st.acc.isEmpty then i else st.accStart } := by
  unfold chunkStep
  dsimp only
  simp only [hig, hlvl]
  by_cases hemp : st.acc.isEmpty <;> simp [hemp, hsz]

/-- A body paragraph exceeding the size bound (chunker.py lines 121-136):
flush the appended accumulation at position `i`, then reseed from the
overlap window exactly when `overlap_paragraphs > 0`. -/
theorem step_body_flush (M : String → Option StyleConfig) (T O : Int)
    (PS : List Para) (st : ChunkerState) (i : Nat) (p : Para)
    (hig : (get_style_config M p.style).isIgnored = false)
    (hlvl : headingLevelTruthy (get_style_config M p.style).headingLevel = none)
    (hsz : (estimate_tokens (joinContent (st.acc ++ [p])) : Int) > T) :
    chunkStep M T O PS st i p =
      (if O > 0 then
        { chunks := st.chunks ++
            [mkChunk { st with acc := st.acc ++ [p],
                               accStart := if st.acc.isEmpty then i else st.accStart } (i : Int)],
          hierarchy := st.hierarchy,
          acc := overlapSeed M O PS i,
          accStart := overlapStart O i }
      else
        { chunks := st.chunks ++
            [mkChunk { st with acc := st.acc ++ [p],
                               accStart := if st.acc.isEmpty then i else st.accStart } (i : Int)],
          hierarchy := st.hierarchy,
          acc := [],
          accStart := if st.acc.isEmpty then i else st.accStart }) := by
  unfold chunkStep
  dsimp only
  simp only [hig, hlvl]
  have hne : ¬ (st.acc ++ [p]).isEmpty := by simp
  by_cases hemp : st.acc.isEmpty <;>
    by_cases hov : O > 0 <;>
    simp [hemp, hsz, hov, flush_chunk_acc, flush_chunk, hne, mkChunk]

theorem chunkLoop_nil (M : String → Option StyleConfig) (T O : Int)
    (PS : List Para) (i : Nat) (st : ChunkerState) :
    chunkLoop M T O PS i [] st = st := rfl

theorem chunkLoop_cons (M : String → Option StyleConfig) (T O : Int)
    (PS : List Para) (i : Nat) (p : Para) (rest : List Para) (st : ChunkerState) :
    chunkLoop M T O PS i (p :: rest) st =
      chunkLoop M T O PS (i + 1) rest (chunkStep M T O PS st i p) := rfl

/-- One step only ever appends to the output chunk list. -/
theorem chunkStep_chunks_mono (M : String → Option StyleConfig) (T O : Int)
    (PS : List Para) (st : ChunkerState) (i : Nat) (p : Para) :
    ∃ app, (chunkStep M T O PS st i p).chunks = st.chunks ++ app := by
  by_cases hig : (get_style_config M p.style).isIgnored
  · exact ⟨[], by simp [step_ignored M T O PS st i p hig]⟩
  · replace hig : (get_style_config M p.style).isIgnored = false := by
      simpa using hig
    cases hlvl : headingLevelTruthy (get_style_config M p.style).headingLevel with
    | some lvl =>
      rw [step_heading M T O PS st i p lvl hig hlvl]
      exact ⟨_, rfl⟩
    | none =>
      by_cases hsz : (estimate_tokens (joinContent (st.acc ++ [p])) : Int) > T
      · rw [step_body_flush M T O PS st i p hig hlvl hsz]
        by_cases hov : O > 0 <;> simp [hov]
      · rw [step_body_noflush M T O PS st i p hig hlvl hsz]
        exact ⟨[], by simp⟩

/-- The loop only ever appends to the output chunk list. -/
theorem chunkLoop_chunks_mono (M : String → Option StyleConfig) (T O : Int)
    (PS : List Para) :
    ∀ (rest : List Para) (i : Nat) (st : ChunkerState),
      ∃ app, (chunkLoop M T O PS i rest st).chunks = st.chunks ++ app := by
  intro rest
  induction rest with
  | nil => exact fun i st => ⟨[], by simp [chunkLoop_nil]⟩
  | cons p rest ih =>
    intro i st
    rw [chunkLoop_cons]
    obtain ⟨app1, h1⟩ := chunkStep_chunks_mono M T O PS st i p
    obtain ⟨app2, h2⟩ := ih (i + 1) (chunkStep M T O PS st i p)
    exact ⟨app1 ++ app2, by rw [h2, h1, List.append_assoc]⟩

/-- The final flush only ever appends to the output chunk list. -/
theorem final_flush_chunks_mono (PS : List Para) (st : ChunkerState) :
    ∃ app, (final_flush PS st).chunks = st.chunks ++ app := by
  unfold final_flush
  split
  · exact ⟨[], by simp⟩
  · exact ⟨_, flush_chunk_chunks st _⟩

/-- If the accumulation is non-empty, then however the scan continues, some
further chunk is emitted, and the first chunk emitted after this point has
the current accumulation as a prefix of the paragraphs joined into its
content. -/
theorem loop_emits_pending (M : String → Option StyleConfig) (T O : Int)
    (PS : List Para) :
    ∀ (rest : List Para) (i : Nat) (st : ChunkerState), st.acc ≠ [] →
      st.chunks.length < (final_flush PS (chunkLoop M T O PS i rest st)).chunks.length ∧
      ∃ extra,
        ((final_flush PS (chunkLoop M T O PS i rest st)).chunks.getD
            st.chunks.length default).content = joinContent (st.acc ++ extra) := by
  intro rest
  induction rest with
  | nil =>
    intro i st hacc
    rw [chunkLoop_nil]
    unfold final_flush
    rw [if_neg (by simpa [List.isEmpty_iff] using hacc)]
    rw [flush_chunk_chunks, if_neg (by simpa [List.isEmpty_iff] using hacc)]
    constructor
    · simp
    · refine ⟨[], ?_⟩
      rw [List.getD_append_right _ _ _ _ (le_refl _)]
      simp [mkChunk]
  | cons p rest ih =>
    intro i st hacc
    rw [chunkLoop_cons]
    by_cases hig : (get_style_config M p.style).isIgnored
    · rw [step_ignored M T O PS st i p hig]
      exact ih (i + 1) st hacc
    · replace hig : (get_style_config M p.style).isIgnored = false := by
        simpa using hig
      cases hlvl : headingLevelTruthy (get_style_config M p.style).headingLevel with
      | some lvl =>
        rw [step_heading M T O PS st i p lvl hig hlvl,
          if_neg (by simpa [List.isEmpty_iff] using hacc)]
        obtain ⟨app1, h1⟩ := chunkLoop_chunks_mono M T O PS rest (i + 1) _
        obtain ⟨app2, h2⟩ := final_flush_chunks_mono PS _
        rw [h2, h1]
        dsimp only
        constructor
        · simp
        · refine ⟨[], ?_⟩
          rw [List.append_assoc, List.append_assoc,
            List.getD_append_right _ _ _ _ (le_refl _)]
          simp [mkChunk]
      | none =>
        by_cases hsz : (estimate_tokens (joinContent (st.acc ++ [p])) : Int) > T
        · rw [step_body_flush M T O PS st i p hig hlvl hsz]
          by_cases hov : O > 0
          · rw [if_pos hov]
            obtain ⟨app1, h1⟩ := chunkLoop_chunks_mono M T O PS rest (i + 1) _
            obtain ⟨app2, h2⟩ := final_flush_chunks_mono PS _
            rw [h2, h1]
            dsimp only
            constructor
            · simp
            · refine ⟨[p], ?_⟩
              rw [List.append_assoc, List.append_assoc,
                List.getD_append_right _ _ _ _ (le_refl _)]
              simp [mkChunk]
          · rw [if_neg hov]
            obtain ⟨app1, h1⟩ := chunkLoop_chunks_mono M T O PS rest (i + 1) _
            obtain ⟨app2, h2⟩ := final_flush_chunks_mono PS _
            rw [h2, h1]
            dsimp only
            constructor
            · simp
            · refine ⟨[p], ?_⟩
              rw [List.append_assoc, List.append_assoc,
                List.getD_append_right _ _ _ _ (le_refl _)]
              simp [mkChunk]
        · rw [step_body_noflush M T O PS st i p hig hlvl hsz]
          have hne : ({ st with acc := st.acc ++ [p], accStart := (if st.acc.isEmpty then i else st.accStart) } : ChunkerState).acc ≠ [] := by simp
          obtain ⟨hlt, extra, hco⟩ := ih (i + 1) _ hne
          refine ⟨hlt, [p] ++ extra, ?_⟩
          rw [← List.append_assoc]
          exact hco

/-- Levels strictly increase from the bottom of the stack to the top. -/
abbrev hierOK (h : List HEntry) : Prop :=
  List.Chain' (fun a b => a.level < b.level) h

theorem popGE_decomp (lvl : Int) :
    ∀ h : List HEntry, ∃ t, popGE h lvl ++ t = h := by
  intro h
  induction h with
  | nil => exact ⟨[], rfl⟩
  | cons e rest ih =>
    obtain ⟨t, ht⟩ := ih
    unfold popGE
    dsimp only
    split
    · exact ⟨e :: rest, rfl⟩
    · exact ⟨t, by rw [List.cons_append, ht]⟩

theorem popGE_last_lt (lvl : Int) :
    ∀ h : List HEntry, ∀ e ∈ (popGE h lvl).getLast?, e.level < lvl := by
  intro h
  induction h with
  | nil => intro e he; simp [popGE] at he
  | cons a rest ih =>
    intro e he
    unfold popGE at he
    dsimp only at he
    by_cases hr : (popGE rest lvl).isEmpty
    · by_cases hl : lvl ≤ a.level
      · rw [if_pos (by simp [hr, hl])] at he
        simp at he
      · rw [if_neg (by simp [hl])] at he
        rw [List.isEmpty_iff.mp hr] at he
        simp at he
        subst he
        omega
    · rw [if_neg (by simp [hr])] at he
      have hne : popGE rest lvl ≠ [] := fun hc => hr (by simp [hc])
      obtain ⟨x, xs, hxxs⟩ := List.exists_cons_of_ne_nil hne
      rw [hxxs, List.getLast?_cons_cons] at he
      exact ih e (by rw [hxxs]; exact he)

theorem hierOK_popGE (lvl : Int) (h : List HEntry) (hh : hierOK h) :
    hierOK (popGE h lvl) := by
  obtain ⟨t, ht⟩ := popGE_decomp lvl h
  rw [← ht] at hh
  exact (List.chain'_append.mp hh).1

theorem hierOK_push (h : List HEntry) (lvl : Int) (n : String)
    (hh : hierOK h) : hierOK (popGE h lvl ++ [⟨n, lvl⟩]) := by
  rw [hierOK, List.chain'_append]
  refine ⟨hierOK_popGE lvl h hh, List.chain'_singleton _, ?_⟩
  intro x hx y hy
  simp only [List.head?_cons, Option.mem_def, Option.some.injEq] at hy
  rw [← hy]
  exact popGE_last_lt lvl h x hx

/-- Invariant of the output chunk list: indices are `0..n-1` in order, every
chunk's hierarchy-list levels strictly increase, and every chunk's hash is
the truncated SHA-256 of its content. -/
def chunkListOK (cs : List Chunk) : Prop :=
  cs.map (fun c => c.chunkIndex) = List.range cs.length ∧
  ∀ c ∈ cs, List.Chain' (fun a b => a.level < b.level) c.hierarchyJson ∧
    c.chunkHash = chunk_hash c.content

/-- Invariant of the whole scan state. -/
def ChunksOK (st : ChunkerState) : Prop :=
  hierOK st.hierarchy ∧ chunkListOK st.chunks

theorem chunkListOK_append_mk (st : ChunkerState) (e : Int)
    (h : chunkListOK st.chunks) (hh : hierOK st.hierarchy) :
    chunkListOK (st.chunks ++ [mkChunk st e]) := by
  obtain ⟨hidx, hall⟩ := h
  constructor
  · rw [List.map_append, hidx]
    simp [mkChunk, List.range_succ]
  · intro c hc
    rcases List.mem_append.mp hc with hc | hc
    · exact hall c hc
    · rw [List.mem_singleton.mp hc]
      constructor
      · show List.Chain' _ (build_hierarchy_json st.hierarchy)
        rw [build_hierarchy_json_eq]
        exact hh
      · rfl

theorem chunksOK_flush (st : ChunkerState) (e : Int) (hok : ChunksOK st) :
    ChunksOK (flush_chunk st e) := by
  unfold flush_chunk
  split
  · exact hok
  · exact ⟨hok.1, chunkListOK_append_mk st e hok.2 hok.1⟩

theorem chunksOK_step (M : String → Option StyleConfig) (T O : Int)
    (PS : List Para) (st : ChunkerState) (i : Nat) (p : Para)
    (hok : ChunksOK st) : ChunksOK (chunkStep M T O PS st i p) := by
  by_cases hig : (get_style_config M p.style).isIgnored
  · rw [step_ignored M T O PS st i p hig]; exact hok
  · replace hig : (get_style_config M p.style).isIgnored = false := by
      simpa using hig
    cases hlvl : headingLevelTruthy (get_style_config M p.style).headingLevel with
    | some lvl =>
      rw [step_heading M T O PS st i p lvl hig hlvl]
      refine ⟨hierOK_push st.hierarchy lvl (takeChars p.text 100) hok.1, ?_⟩
      show chunkListOK (st.chunks ++ _)
      split
      · simpa using hok.2
      · exact chunkListOK_append_mk st ((i : Int) - 1) hok.2 hok.1
    | none =>
      by_cases hsz : (estimate_tokens (joinContent (st.acc ++ [p])) : Int) > T
      · rw [step_body_flush M T O PS st i p hig hlvl hsz]
        have hmk := chunkListOK_append_mk
          { st with acc := st.acc ++ [p],
                    accStart := (if st.acc.isEmpty then i else st.accStart) }
          (i : Int) hok.2 hok.1
        by_cases hov : O > 0
        · rw [if_pos hov]
          exact ⟨hok.1, hmk⟩
        · rw [if_neg hov]
          exact ⟨hok.1, hmk⟩
      · rw [step_body_noflush M T O PS st i p hig hlvl hsz]
        exact hok

theorem chunksOK_loop (M : String → Option StyleConfig) (T O : Int)
    (PS : List Para) :
    ∀ (rest : List Para) (i : Nat) (st : ChunkerState),
      ChunksOK st → ChunksOK (chunkLoop M T O PS i rest st) := by
  intro rest
  induction rest with
  | nil => intro i st h; exact h
  | cons p rest ih =>
    intro i st h
    rw [chunkLoop_cons]
    exact ih (i + 1) _ (chunksOK_step M T O PS st i p h)

theorem chunksOK_chunk_document (PS : List Para)
    (M : String → Option StyleConfig) (T O : Int) :
    chunkListOK (chunk_document PS M T O) := by
  unfold chunk_document final_flush
  have h0 : ChunksOK ⟨[], [], [], 0⟩ := by
    refine ⟨List.chain'_nil, by simp [chunkListOK], ?_⟩
    intro c hc
    simp at hc
  have h1 := chunksOK_loop M T O PS PS 0 ⟨[], [], [], 0⟩ h0
  split
  · exact h1.2
  · exact (chunksOK_flush _ _ h1).2

theorem hierOK_head_lt :
    ∀ (rest : List HEntry) (a : HEntry), hierOK (a :: rest) →
      ∀ x ∈ rest, a.level < x.level := by
  intro rest
  induction rest with
  | nil => intro a _ x hx; simp at hx
  | cons b t ih =>
    intro a hh x hx
    have hab : a.level < b.level := (List.chain'_cons.mp hh).1
    rcases List.mem_cons.mp hx with hxb | hx
    · rw [hxb]; exact hab
    · exact lt_trans hab (ih b (List.chain'_cons.mp hh).2 x hx)

/-- On a strictly increasing stack, the pop loop removes exactly the
entries whose level is `≥ lvl`. -/
theorem popGE_eq_filter (lvl : Int) :
    ∀ h : List HEntry, hierOK h →
      popGE h lvl = h.filter (fun e => decide (e.level < lvl)) := by
  intro h
  induction h with
  | nil => intro _; rfl
  | cons a rest ih =>
    intro hh
    have hrest : hierOK rest := (List.chain'_cons'.mp hh).2
    have hup := hierOK_head_lt rest a hh
    unfold popGE
    dsimp only
    by_cases hflt : a.level < lvl
    · rw [if_neg (by simp; intro _; omega)]
      rw [ih hrest, List.filter_cons_of_pos (by simpa using hflt)]
    · have hfr : rest.filter (fun e => decide (e.level < lvl)) = [] := by
        rw [List.filter_eq_nil_iff]
        intro x hx
        have := hup x hx
        simp
        omega
      rw [if_pos (by simp [ih hrest, hfr]; omega)]
      rw [List.filter_cons_of_neg (by simpa using hflt), hfr]

theorem filterMap_eq_map_of {α β : Type} (f : α → Option β) (g : α → β) :
    ∀ l : List α, (∀ x ∈ l, f x = some (g x)) → l.filterMap f = l.map g := by
  intro l
  induction l with
  | nil => intro _; rfl
  | cons a t ih =>
    intro hall
    rw [List.filterMap_cons, hall a (by simp), List.map_cons,
      ih (fun x hx => hall x (by simp [hx]))]

/-- When the whole overlap window consists of in-range body paragraphs, the
reseeded accumulation is exactly the window paragraphs in order. -/
theorem overlapSeed_all_body (M : String → Option StyleConfig) (O : Int)
    (PS : List Para) (i k : Nat) (hk : O = (k : Int)) (hk0 : 0 < k)
    (hki : k ≤ i + 1) (hlen : i < PS.length)
    (hbody : ∀ j, i + 1 - k ≤ j → j ≤ i →
      (get_style_config M (PS.getD j default).style).isIgnored = false ∧
      headingLevelTruthy (get_style_config M (PS.getD j default).style).headingLevel = none) :
    overlapSeed M O PS i =
      (List.range' (i + 1 - k) k).map (fun j => PS.getD j default) := by
  have hos : overlapStart O i = i + 1 - k := by
    unfold overlapStart
    omega
  unfold overlapSeed
  rw [hos]
  have hlen' : i + 1 - (i + 1 - k) = k := by omega
  rw [hlen']
  apply filterMap_eq_map_of
  intro j hj
  rw [List.mem_range'_1] at hj
  have hj1 : i + 1 - k ≤ j := hj.1
  have hj2 : j ≤ i := by omega
  obtain ⟨hig, hlvl⟩ := hbody j hj1 hj2
  rw [if_pos (by omega)]
  rw [if_pos (by rw [hig, hlvl]; rfl)]

/-- With a negative token bound, no overlap, and no heading-mapped
paragraphs, the scan emits one chunk per non-ignored paragraph, each chunk
containing exactly that paragraph text. -/
theorem degenerate_loop (M : String → Option StyleConfig) (T O : Int)
    (PS : List Para) (hT : T < 0) (hO : ¬ O > 0)
    (hhead : ∀ q : Para, q ∈ PS →
      headingLevelTruthy (get_style_config M q.style).headingLevel = none) :
    ∀ (rest : List Para) (i : Nat) (st : ChunkerState), rest ⊆ PS → st.acc = [] →
      (chunkLoop M T O PS i rest st).acc = [] ∧
      (chunkLoop M T O PS i rest st).chunks.map (fun c => c.content) =
        st.chunks.map (fun c => c.content) ++
          (rest.filter (fun q => !(get_style_config M q.style).isIgnored)).map
            (fun q => q.text) := by
  intro rest
  induction rest with
  | nil => intro i st _ hacc; simp [chunkLoop_nil, hacc]
  | cons p rest ih =>
    intro i st hsub hacc
    have hp : p ∈ PS := hsub (by simp)
    have hsub' : rest ⊆ PS := fun x hx => hsub (by simp [hx])
    rw [chunkLoop_cons]
    by_cases hig : (get_style_config M p.style).isIgnored
    · rw [step_ignored M T O PS st i p hig]
      obtain ⟨h1, h2⟩ := ih (i + 1) st hsub' hacc
      refine ⟨h1, ?_⟩
      rw [h2, List.filter_cons_of_neg (by simp [hig])]
    · replace hig : (get_style_config M p.style).isIgnored = false := by
        simpa using hig
      have hsz : (estimate_tokens (joinContent (st.acc ++ [p])) : Int) > T := by
        have : (0 : Int) ≤ (estimate_tokens (joinContent (st.acc ++ [p])) : Int) :=
          Int.ofNat_nonneg _
        omega
      rw [step_body_flush M T O PS st i p hig (hhead p hp) hsz, if_neg hO]
      have hstep : ({ chunks := st.chunks ++
          [mkChunk { st with acc := st.acc ++ [p], accStart := (if st.acc.isEmpty then i else st.accStart) } (i : Int)], hierarchy := st.hierarchy, acc := [], accStart := (if st.acc.isEmpty then i else st.accStart) } : ChunkerState).acc = [] := rfl
      obtain ⟨h1, h2⟩ := ih (i + 1) _ hsub' hstep
      refine ⟨h1, ?_⟩
      rw [h2]
      dsimp only
      rw [List.filter_cons_of_pos (by simp [hig]), List.map_append]
      simp only [List.map_cons, List.map_nil, List.append_assoc]
      have hcontent : (mkChunk { st with acc := st.acc ++ [p], accStart := (if st.acc.isEmpty then i else st.accStart) } (i : Int)).content = p.text := by
        show joinContent (st.acc ++ [p]) = p.text
        rw [hacc]
        exact joinContent_single p
      rw [hcontent]
      rfl

/-- A fold entry for a different style name does not change the mapping at
`name`. -/
theorem db_style_fold_other (m : String → Option StyleConfig) (s : DbStyle)
    (name : String) (hne : ¬ name = s.style_name) :
    db_style_fold m s name = m name := by
  unfold db_style_fold
  split
  · cases s.heading_level with
    | none => rfl
    | some l =>
      dsimp only
      split
      · dsimp only
        rw [if_neg hne]
      · split
        · dsimp only
          rw [if_neg hne]
        · rfl
  · rfl

theorem db_foldl_untouched (name : String) :
    ∀ (dbs : List DbStyle) (m : String → Option StyleConfig),
      dbs.filter (fun s => s.style_name == name) = [] →
      dbs.foldl db_style_fold m name = m name := by
  intro dbs
  induction dbs with
  | nil => intro m _; rfl
  | cons s rest ih =>
    intro m hflt
    by_cases hn : (s.style_name == name) = true
    · simp only [List.filter_cons, hn, if_true] at hflt
      exact absurd hflt (by simp)
    · simp only [List.filter_cons, hn, if_false, Bool.false_eq_true] at hflt
      rw [List.foldl_cons, ih _ hflt, db_style_fold_other]
      intro hc
      rw [hc] at hn
      simp at hn

/-- If the configured rows for `name` consist of exactly one row with the
`-1` sentinel, the built mapping marks `name` as ignored. -/
theorem db_foldl_sentinel (name : String) :
    ∀ (dbs : List DbStyle) (m : String → Option StyleConfig),
      dbs.filter (fun s => s.style_name == name) = [⟨name, true, some (-1)⟩] →
      dbs.foldl db_style_fold m name = some ⟨none, false, true⟩ := by
  intro dbs
  induction dbs with
  | nil => intro m hflt; simp at hflt
  | cons s rest ih =>
    intro m hflt
    by_cases hn : (s.style_name == name) = true
    · simp only [List.filter_cons, hn, if_true] at hflt
      rw [List.cons_eq_cons] at hflt
      obtain ⟨hs, hrest⟩ := hflt
      rw [List.foldl_cons, db_foldl_untouched name rest _ hrest, hs]
      unfold db_style_fold
      simp
    · simp only [List.filter_cons, hn, if_false, Bool.false_eq_true] at hflt
      rw [List.foldl_cons, ih _ hflt]

theorem wordHex_length (w : Nat) : (wordHex w).length = 8 := by
  simp [wordHex]

/-- The hex alphabet used by `hexdigest`. -/
def hexAlphabet : List Char := "0123456789abcdef".data

theorem hexChar_mem_alphabet : ∀ m, m < 16 → hexChar m ∈ hexAlphabet := by
  decide

theorem wordHex_mem_alphabet (w : Nat) : ∀ c ∈ wordHex w, c ∈ hexAlphabet := by
  intro c hc
  unfold wordHex at hc
  rw [List.mem_map] at hc
  obtain ⟨x, _, hx⟩ := hc
  rw [← hx]
  exact hexChar_mem_alphabet _ (Nat.mod_lt _ (by omega))

theorem sha256hexdigest_length (msg : List Nat) :
    (sha256hexdigest msg).length = 64 := by
  show (wordHex (sha256words msg).a ++ wordHex (sha256words msg).b ++
    wordHex (sha256words msg).c ++ wordHex (sha256words msg).d ++
    wordHex (sha256words msg).e ++ wordHex (sha256words msg).f ++
    wordHex (sha256words msg).g ++ wordHex (sha256words msg).h).length = 64
  simp [List.length_append, wordHex_length]

theorem chunk_hash_length (content : String) :
    (chunk_hash content).length = 16 := by
  unfold chunk_hash
  rw [takeChars_length, sha256hexdigest_length]
  rfl

theorem chunk_hash_hex (content : String) :
    ∀ c ∈ (chunk_hash content).data, c ∈ hexAlphabet := by
  intro c hc
  have hmem : c ∈ (wordHex (sha256words (utf8Bytes content)).a ++
      wordHex (sha256words (utf8Bytes content)).b ++
      wordHex (sha256words (utf8Bytes content)).c ++
      wordHex (sha256words (utf8Bytes content)).d ++
      wordHex (sha256words (utf8Bytes content)).e ++
      wordHex (sha256words (utf8Bytes content)).f ++
      wordHex (sha256words (utf8Bytes content)).g ++
      wordHex (sha256words (utf8Bytes content)).h) :=
    List.mem_of_mem_take hc
  simp only [List.mem_append] at hmem
  rcases hmem with ((((((h | h) | h) | h) | h) | h) | h) | h <;>
    exact wordHex_mem_alphabet _ c h

/-! ## Claim theorems -/

/-- C1 (corrected). For two Body paragraphs of 200 characters each and a
`maxChunkTokens` between the single-paragraph estimate (50) and the joined
estimate (100), with `overlapParagraphs = 0`, `chunk_document` returns ONE
chunk whose content is both paragraphs joined by the blank-line separator,
with empty `hierarchyPath` — not two single-paragraph chunks: the size
check runs after the paragraph is appended, so the flush emits both. -/
theorem spec_C1 (t1 t2 : String) (T : Int)
    (h1 : t1.length = 200) (h2 : t2.length = 200)
    (hT1 : 50 ≤ T) (hT2 : T < 100) :
    chunk_document [⟨t1, "Normal"⟩, ⟨t2, "Normal"⟩] (fun _ => none) T 0 =
      [{ chunkIndex := 0,
         content := t1 ++ "\n\n" ++ t2,
         contentLength := 402,
         tokenEstimate := 100,
         hierarchyPath := "",
         hierarchyJson := [],
         hierarchyLevel := none,
         paragraphStart := 0,
         paragraphEnd := 1,
         chunkHash := chunk_hash (t1 ++ "\n\n" ++ t2) }] := by
  have hig : (get_style_config (fun _ => none) "Normal").isIgnored = false := rfl
  have hlvl : headingLevelTruthy
      (get_style_config (fun _ => none) "Normal").headingLevel = none := rfl
  have hest1 : estimate_tokens t1 = 50 := by
    unfold estimate_tokens
    rw [h1]
  have hlen2 : (t1 ++ "\n\n" ++ t2).length = 402 := by
    rw [String.length_append, String.length_append, h1, h2]
    decide
  have hest2 : estimate_tokens (t1 ++ "\n\n" ++ t2) = 100 := by
    unfold estimate_tokens
    rw [hlen2]
  unfold chunk_document
  rw [chunkLoop_cons, chunkLoop_cons, chunkLoop_nil]
  rw [step_body_noflush (fun _ => none) T 0
      [⟨t1, "Normal"⟩, ⟨t2, "Normal"⟩] ⟨[], [], [], 0⟩ 0 ⟨t1, "Normal"⟩ hig hlvl
      (by
        show ¬ (estimate_tokens (joinContent ([] ++ [(⟨t1, "Normal"⟩ : Para)])) : Int) > T
        rw [List.nil_append, joinContent_single]
        dsimp only
        rw [hest1]
        omega)]
  simp only [List.isEmpty_nil, if_true, List.nil_append]
  rw [step_body_flush (fun _ => none) T 0
      [⟨t1, "Normal"⟩, ⟨t2, "Normal"⟩] ⟨[], [], [⟨t1, "Normal"⟩], 0⟩ (0 + 1)
      ⟨t2, "Normal"⟩ hig hlvl
      (by
        show (estimate_tokens (joinContent
          ([(⟨t1, "Normal"⟩ : Para)] ++ [(⟨t2, "Normal"⟩ : Para)])) : Int) > T
        rw [show [(⟨t1, "Normal"⟩ : Para)] ++ [(⟨t2, "Normal"⟩ : Para)] =
          [⟨t1, "Normal"⟩, ⟨t2, "Normal"⟩] from rfl, joinContent_pair]
        dsimp only
        rw [hest2]
        omega)]
  rw [if_neg (by omega)]
  unfold final_flush
  simp only [List.isEmpty_cons, List.isEmpty_nil, if_true, if_false,
    Bool.false_eq_true, List.nil_append]
  simp [mkChunk, joinContent_pair, hlen2, hest2, estimate_tokens,
    build_hierarchy_path, build_hierarchy_json, get_hierarchy_level]

set_option maxRecDepth 10000 in
/-- C1 counterexample: on the concrete Scenario B input (two 200-character
Body paragraphs, `maxChunkTokens = 60`, `overlapParagraphs = 0`) the claim
says exactly two chunks are returned; the code returns a different number
of chunks (namely one). -/
theorem spec_C1_counterexample :
    (chunk_document
      [⟨"xxxxxxxxxxxxxxxxxxxxxxxxxxxxxxxxxxxxxxxxxxxxxxxxxxxxxxxxxxxxxxxxxxxxxxxxxxxxxxxxxxxxxxxxxxxxxxxxxxxxxxxxxxxxxxxxxxxxxxxxxxxxxxxxxxxxxxxxxxxxxxxxxxxxxxxxxxxxxxxxxxxxxxxxxxxxxxxxxxxxxxxxxxxxxxxxxxxxxxxx", "Normal"⟩,
       ⟨"yyyyyyyyyyyyyyyyyyyyyyyyyyyyyyyyyyyyyyyyyyyyyyyyyyyyyyyyyyyyyyyyyyyyyyyyyyyyyyyyyyyyyyyyyyyyyyyyyyyyyyyyyyyyyyyyyyyyyyyyyyyyyyyyyyyyyyyyyyyyyyyyyyyyyyyyyyyyyyyyyyyyyyyyyyyyyyyyyyyyyyyyyyyyyyyyyyyyyyyy", "Normal"⟩] (fun _ => none) 60 0).length ≠ 2 := by
  decide

set_option maxRecDepth 10000 in
/-- C1 witness: the amended statement applied at `maxChunkTokens = 60` and
concrete 200-character paragraphs. -/
theorem spec_C1_witness :
    ("xxxxxxxxxxxxxxxxxxxxxxxxxxxxxxxxxxxxxxxxxxxxxxxxxxxxxxxxxxxxxxxxxxxxxxxxxxxxxxxxxxxxxxxxxxxxxxxxxxxxxxxxxxxxxxxxxxxxxxxxxxxxxxxxxxxxxxxxxxxxxxxxxxxxxxxxxxxxxxxxxxxxxxxxxxxxxxxxxxxxxxxxxxxxxxxxxxxxxxxx" : String).length = 200 ∧
    ("yyyyyyyyyyyyyyyyyyyyyyyyyyyyyyyyyyyyyyyyyyyyyyyyyyyyyyyyyyyyyyyyyyyyyyyyyyyyyyyyyyyyyyyyyyyyyyyyyyyyyyyyyyyyyyyyyyyyyyyyyyyyyyyyyyyyyyyyyyyyyyyyyyyyyyyyyyyyyyyyyyyyyyyyyyyyyyyyyyyyyyyyyyyyyyyyyyyyyyyy" : String).length = 200 ∧
    (50 : Int) ≤ 60 ∧ (60 : Int) < 100 ∧
    chunk_document [⟨"xxxxxxxxxxxxxxxxxxxxxxxxxxxxxxxxxxxxxxxxxxxxxxxxxxxxxxxxxxxxxxxxxxxxxxxxxxxxxxxxxxxxxxxxxxxxxxxxxxxxxxxxxxxxxxxxxxxxxxxxxxxxxxxxxxxxxxxxxxxxxxxxxxxxxxxxxxxxxxxxxxxxxxxxxxxxxxxxxxxxxxxxxxxxxxxxxxxxxxxx", "Normal"⟩, ⟨"yyyyyyyyyyyyyyyyyyyyyyyyyyyyyyyyyyyyyyyyyyyyyyyyyyyyyyyyyyyyyyyyyyyyyyyyyyyyyyyyyyyyyyyyyyyyyyyyyyyyyyyyyyyyyyyyyyyyyyyyyyyyyyyyyyyyyyyyyyyyyyyyyyyyyyyyyyyyyyyyyyyyyyyyyyyyyyyyyyyyyyyyyyyyyyyyyyyyyyyy", "Normal"⟩] (fun _ => none) 60 0 =
      [{ chunkIndex := 0,
         content := "xxxxxxxxxxxxxxxxxxxxxxxxxxxxxxxxxxxxxxxxxxxxxxxxxxxxxxxxxxxxxxxxxxxxxxxxxxxxxxxxxxxxxxxxxxxxxxxxxxxxxxxxxxxxxxxxxxxxxxxxxxxxxxxxxxxxxxxxxxxxxxxxxxxxxxxxxxxxxxxxxxxxxxxxxxxxxxxxxxxxxxxxxxxxxxxxxxxxxxxx" ++ "\n\n" ++ "yyyyyyyyyyyyyyyyyyyyyyyyyyyyyyyyyyyyyyyyyyyyyyyyyyyyyyyyyyyyyyyyyyyyyyyyyyyyyyyyyyyyyyyyyyyyyyyyyyyyyyyyyyyyyyyyyyyyyyyyyyyyyyyyyyyyyyyyyyyyyyyyyyyyyyyyyyyyyyyyyyyyyyyyyyyyyyyyyyyyyyyyyyyyyyyyyyyyyyyy",
         contentLength := 402,
         tokenEstimate := 100,
         hierarchyPath := "",
         hierarchyJson := [],
         hierarchyLevel := none,
         paragraphStart := 0,
         paragraphEnd := 1,
         chunkHash := chunk_hash ("xxxxxxxxxxxxxxxxxxxxxxxxxxxxxxxxxxxxxxxxxxxxxxxxxxxxxxxxxxxxxxxxxxxxxxxxxxxxxxxxxxxxxxxxxxxxxxxxxxxxxxxxxxxxxxxxxxxxxxxxxxxxxxxxxxxxxxxxxxxxxxxxxxxxxxxxxxxxxxxxxxxxxxxxxxxxxxxxxxxxxxxxxxxxxxxxxxxxxxxx" ++ "\n\n" ++ "yyyyyyyyyyyyyyyyyyyyyyyyyyyyyyyyyyyyyyyyyyyyyyyyyyyyyyyyyyyyyyyyyyyyyyyyyyyyyyyyyyyyyyyyyyyyyyyyyyyyyyyyyyyyyyyyyyyyyyyyyyyyyyyyyyyyyyyyyyyyyyyyyyyyyyyyyyyyyyyyyyyyyyyyyyyyyyyyyyyyyyyyyyyyyyyyyyyyyyyy") }] :=
  ⟨rfl, rfl, by omega, by omega,
    spec_C1 "xxxxxxxxxxxxxxxxxxxxxxxxxxxxxxxxxxxxxxxxxxxxxxxxxxxxxxxxxxxxxxxxxxxxxxxxxxxxxxxxxxxxxxxxxxxxxxxxxxxxxxxxxxxxxxxxxxxxxxxxxxxxxxxxxxxxxxxxxxxxxxxxxxxxxxxxxxxxxxxxxxxxxxxxxxxxxxxxxxxxxxxxxxxxxxxxxxxxxxxx" "yyyyyyyyyyyyyyyyyyyyyyyyyyyyyyyyyyyyyyyyyyyyyyyyyyyyyyyyyyyyyyyyyyyyyyyyyyyyyyyyyyyyyyyyyyyyyyyyyyyyyyyyyyyyyyyyyyyyyyyyyyyyyyyyyyyyyyyyyyyyyyyyyyyyyyyyyyyyyyyyyyyyyyyyyyyyyyyyyyyyyyyyyyyyyyyyyyyyyyyy" 60 rfl rfl (by omega) (by omega)⟩

/-- C2 (confirmed). At a heading paragraph the step flushes any non-empty
accumulation as a chunk whose hierarchy fields capture the stack as it was
BEFORE the heading is applied (`mkChunk st` reads `st.hierarchy`), then
keeps exactly the stack entries with level < the heading level (pops every
entry with level ≥ it), pushes the paragraph text truncated to 100
characters at that level, and restarts the accumulation with exactly this
heading paragraph. -/
theorem spec_C2 (M : String → Option StyleConfig) (T O : Int) (PS : List Para)
    (st : ChunkerState) (i : Nat) (p : Para) (lvl : Int)
    (hig : (get_style_config M p.style).isIgnored = false)
    (hlvl : headingLevelTruthy (get_style_config M p.style).headingLevel = some lvl)
    (hok : hierOK st.hierarchy) :
    chunkStep M T O PS st i p =
      { chunks := st.chunks ++
          (if st.acc.isEmpty then [] else [mkChunk st ((i : Int) - 1)]),
        hierarchy := st.hierarchy.filter (fun e => decide (e.level < lvl)) ++
          [⟨takeChars p.text 100, lvl⟩],
        acc := [p],
        accStart := i } := by
  rw [step_heading M T O PS st i p lvl hig hlvl,
    ← popGE_eq_filter lvl st.hierarchy hok]

/-- C2 witness: a level-2 heading over the stack `[("A",1),("B",2)]` with a
pending body accumulation flushes the old chunk under the pre-heading stack
and leaves the stack `[("A",1),("C",2)]`. -/
theorem spec_C2_witness :
    (get_style_config (fun s => if s = "h2" then some ⟨some 2, false, false⟩ else none)
      "h2").isIgnored = false ∧
    headingLevelTruthy (get_style_config
      (fun s => if s = "h2" then some ⟨some 2, false, false⟩ else none)
      "h2").headingLevel = some 2 ∧
    hierOK [⟨"A", 1⟩, ⟨"B", 2⟩] ∧
    chunkStep (fun s => if s = "h2" then some ⟨some 2, false, false⟩ else none)
      500 1 [] ⟨[], [⟨"A", 1⟩, ⟨"B", 2⟩], [⟨"x", "b"⟩], 3⟩ 4 ⟨"C", "h2"⟩ =
      { chunks := [] ++
          (if ([⟨"x", "b"⟩] : List Para).isEmpty then []
           else [mkChunk ⟨[], [⟨"A", 1⟩, ⟨"B", 2⟩], [⟨"x", "b"⟩], 3⟩ ((4 : Int) - 1)]),
        hierarchy := ([⟨"A", 1⟩, ⟨"B", 2⟩] : List HEntry).filter
          (fun e => decide (e.level < 2)) ++ [⟨takeChars "C" 100, 2⟩],
        acc := [⟨"C", "h2"⟩],
        accStart := 4 } :=
  ⟨rfl, rfl, by simp,
    spec_C2 (fun s => if s = "h2" then some ⟨some 2, false, false⟩ else none)
      500 1 [] ⟨[], [⟨"A", 1⟩, ⟨"B", 2⟩], [⟨"x", "b"⟩], 3⟩ 4 ⟨"C", "h2"⟩ 2
      rfl rfl (by simp)⟩

/-- C7 (confirmed). Every chunk emitted by any run has strictly increasing
levels along its `hierarchyJson` list. -/
theorem spec_C7 (PS : List Para) (M : String → Option StyleConfig) (T O : Int)
    (c : Chunk) (hc : c ∈ chunk_document PS M T O) :
    List.Chain' (fun a b => a.level < b.level) c.hierarchyJson :=
  ((chunksOK_chunk_document PS M T O).2 c hc).1

/-- The paragraphs of the C7 witness run. -/
def exPS7 : List Para := [⟨"T", "h1"⟩, ⟨"S", "h2"⟩, ⟨"b", "b"⟩]

/-- The style mapping of the C7 witness run. -/
def exM7 : String → Option StyleConfig := fun s =>
  if s = "h1" then some ⟨some 1, false, false⟩
  else if s = "h2" then some ⟨some 2, false, false⟩ else none

set_option maxRecDepth 10000 in
/-- C7 witness: the chunk produced under a level-1 then level-2 heading has
hierarchy levels `1 < 2`. -/
theorem spec_C7_witness :
    ((chunk_document exPS7 exM7 500 1).getD 1 default ∈
      chunk_document exPS7 exM7 500 1) ∧
    List.Chain' (fun a b => a.level < b.level)
      ((chunk_document exPS7 exM7 500 1).getD 1 default).hierarchyJson :=
  ⟨by decide, spec_C7 exPS7 exM7 500 1
    ((chunk_document exPS7 exM7 500 1).getD 1 default) (by decide)⟩

/-- C8 (confirmed). For every run, the chunk index values in emission order
are exactly `0, 1, ..., n-1`. -/
theorem spec_C8 (PS : List Para) (M : String → Option StyleConfig) (T O : Int) :
    (chunk_document PS M T O).map (fun c => c.chunkIndex) =
      List.range (chunk_document PS M T O).length :=
  (chunksOK_chunk_document PS M T O).1

/-- C3 (corrected). `paragraphStart` and `paragraphEnd` are positional
markers, not contributing-paragraph indices: an emitted chunk records the
accumulation-start marker and the flush position (`i - 1` at a heading,
`i` at a size flush, `len - 1` at the end of the scan), and after a
size-induced flush with overlap the next accumulation start is the clamped
window start `max(0, i - overlapParagraphs + 1)` regardless of which window
positions were actually re-included. -/
theorem spec_C3 (M : String → Option StyleConfig) (T O : Int)
    (PS : List Para) (st : ChunkerState) (i : Nat) (p : Para) :
    (∀ lvl, (get_style_config M p.style).isIgnored = false →
      headingLevelTruthy (get_style_config M p.style).headingLevel = some lvl →
      st.acc.isEmpty = false →
      ∃ c, (chunkStep M T O PS st i p).chunks = st.chunks ++ [c] ∧
        c.paragraphStart = st.accStart ∧ c.paragraphEnd = (i : Int) - 1) ∧
    ((get_style_config M p.style).isIgnored = false →
      headingLevelTruthy (get_style_config M p.style).headingLevel = none →
      (estimate_tokens (joinContent (st.acc ++ [p])) : Int) > T →
      ∃ c, (chunkStep M T O PS st i p).chunks = st.chunks ++ [c] ∧
        c.paragraphStart = (if st.acc.isEmpty then i else st.accStart) ∧
        c.paragraphEnd = (i : Int) ∧
        (O > 0 → (chunkStep M T O PS st i p).accStart = overlapStart O i)) ∧
    (st.acc.isEmpty = false →
      ∃ c, (final_flush PS st).chunks = st.chunks ++ [c] ∧
        c.paragraphStart = st.accStart ∧
        c.paragraphEnd = (PS.length : Int) - 1) := by
  refine ⟨?_, ?_, ?_⟩
  · intro lvl hig hlvl hacc
    rw [step_heading M T O PS st i p lvl hig hlvl]
    refine ⟨mkChunk st ((i : Int) - 1), ?_, rfl, rfl⟩
    dsimp only
    rw [if_neg (by simp [hacc])]
  · intro hig hlvl hsz
    rw [step_body_flush M T O PS st i p hig hlvl hsz]
    by_cases hov : O > 0
    · rw [if_pos hov]
      exact ⟨_, rfl, rfl, rfl, fun _ => rfl⟩
    · rw [if_neg hov]
      exact ⟨_, rfl, rfl, rfl, fun h => absurd h hov⟩
  · intro hacc
    unfold final_flush
    rw [if_neg (by simp [hacc])]
    rw [flush_chunk_chunks, if_neg (by simp [hacc])]
    exact ⟨_, rfl, rfl, rfl⟩

/-- C3 counterexample: with a trailing ignored paragraph, the single
emitted chunk's content is exactly the text of paragraph 0, yet
`paragraphEnd` is 1 — the index of the ignored paragraph, not of the last
paragraph whose text is part of the content. -/
theorem spec_C3_counterexample :
    (chunk_document [⟨"aaaa", "b"⟩, ⟨"zzz", "ig"⟩]
      (fun s => if s = "ig" then some ⟨none, false, true⟩ else none) 500 1).length = 1 ∧
    ((chunk_document [⟨"aaaa", "b"⟩, ⟨"zzz", "ig"⟩]
      (fun s => if s = "ig" then some ⟨none, false, true⟩ else none) 500 1).getD 0
        default).content = "aaaa" ∧
    ((chunk_document [⟨"aaaa", "b"⟩, ⟨"zzz", "ig"⟩]
      (fun s => if s = "ig" then some ⟨none, false, true⟩ else none) 500 1).getD 0
        default).paragraphEnd = 1 := by
  refine ⟨by decide, by decide, by decide⟩

/-- C3 witness: the size-flush part of the amended statement applied at a
concrete body paragraph that overflows the bound with `overlap = 2`. -/
theorem spec_C3_witness :
    (get_style_config (fun _ => none) "b").isIgnored = false ∧
    headingLevelTruthy (get_style_config (fun _ => none) "b").headingLevel = none ∧
    (estimate_tokens (joinContent (([] : List Para) ++ [⟨"aaaaaaaa", "b"⟩])) : Int) > 1 ∧
    ∃ c, (chunkStep (fun _ => none) 1 2 [⟨"aaaaaaaa", "b"⟩]
        ⟨[], [], [], 0⟩ 0 ⟨"aaaaaaaa", "b"⟩).chunks = ([] : List Chunk) ++ [c] ∧
      c.paragraphStart = (if ([] : List Para).isEmpty then 0 else 0) ∧
      c.paragraphEnd = ((0 : Nat) : Int) ∧
      ((2 : Int) > 0 → (chunkStep (fun _ => none) 1 2 [⟨"aaaaaaaa", "b"⟩]
        ⟨[], [], [], 0⟩ 0 ⟨"aaaaaaaa", "b"⟩).accStart = overlapStart 2 0) :=
  ⟨rfl, rfl, by decide,
    (spec_C3 (fun _ => none) 1 2 [⟨"aaaaaaaa", "b"⟩] ⟨[], [], [], 0⟩ 0
      ⟨"aaaaaaaa", "b"⟩).2.1 rfl rfl (by decide)⟩

/-- C4 (confirmed). When a size-induced flush occurs at body paragraph `i`
with `overlapParagraphs = k > 0`, and the `k` window positions ending at `i`
all hold body paragraphs (which are the last `k` paragraphs of the flushed
accumulation), the reseeded accumulation is exactly those `k` paragraphs,
none of them heading-styled, and however the scan continues, the next
emitted chunk's content begins with their texts joined by the blank-line
separator. -/
theorem spec_C4 (M : String → Option StyleConfig) (T O : Int) (PS : List Para)
    (st : ChunkerState) (i k : Nat) (p : Para)
    (hig : (get_style_config M p.style).isIgnored = false)
    (hlvl : headingLevelTruthy (get_style_config M p.style).headingLevel = none)
    (hsz : (estimate_tokens (joinContent (st.acc ++ [p])) : Int) > T)
    (hk : O = (k : Int)) (hk0 : 0 < k) (hki : k ≤ i + 1) (hlen : i < PS.length)
    (hbody : ∀ j, i + 1 - k ≤ j → j ≤ i →
      (get_style_config M (PS.getD j default).style).isIgnored = false ∧
      headingLevelTruthy (get_style_config M (PS.getD j default).style).headingLevel = none)
    (_hbelong : (st.acc ++ [p]).drop (st.acc.length + 1 - k) =
      (List.range' (i + 1 - k) k).map (fun j => PS.getD j default)) :
    (chunkStep M T O PS st i p).acc =
      (List.range' (i + 1 - k) k).map (fun j => PS.getD j default) ∧
    (∀ q ∈ (chunkStep M T O PS st i p).acc,
      (get_style_config M q.style).isIgnored = false ∧
      headingLevelTruthy (get_style_config M q.style).headingLevel = none) ∧
    (∀ (rest : List Para) (i' : Nat),
      st.chunks.length + 1 <
        (final_flush PS (chunkLoop M T O PS i' rest
          (chunkStep M T O PS st i p))).chunks.length ∧
      ∃ tail,
        ((final_flush PS (chunkLoop M T O PS i' rest
            (chunkStep M T O PS st i p))).chunks.getD
          (st.chunks.length + 1) default).content =
        joinContent ((List.range' (i + 1 - k) k).map (fun j => PS.getD j default))
          ++ tail) := by
  have hov : O > 0 := by omega
  have hseed := overlapSeed_all_body M O PS i k hk hk0 hki hlen hbody
  have hstep : chunkStep M T O PS st i p = { chunks := st.chunks ++ [mkChunk { st with acc := st.acc ++ [p], accStart := (if st.acc.isEmpty then i else st.accStart) } (i : Int)], hierarchy := st.hierarchy, acc := overlapSeed M O PS i, accStart := overlapStart O i } := by
    rw [step_body_flush M T O PS st i p hig hlvl hsz, if_pos hov]
  have hwin : (List.range' (i + 1 - k) k).length = k := List.length_range' _ _ _
  have hwne : (List.range' (i + 1 - k) k).map (fun j => PS.getD j default) ≠ [] := by
    intro hc
    have := congrArg List.length hc
    simp [hwin] at this
    omega
  refine ⟨by rw [hstep]; exact hseed, ?_, ?_⟩
  · intro q hq
    rw [hstep] at hq
    dsimp only at hq
    rw [hseed, List.mem_map] at hq
    obtain ⟨j, hj, hqe⟩ := hq
    rw [List.mem_range'_1] at hj
    rw [← hqe]
    exact hbody j hj.1 (by omega)
  · intro rest i'
    have hne : (chunkStep M T O PS st i p).acc ≠ [] := by
      rw [hstep]
      dsimp only
      rw [hseed]
      exact hwne
    obtain ⟨hlt, extra, hco⟩ :=
      loop_emits_pending M T O PS rest i' (chunkStep M T O PS st i p) hne
    have hclen : (chunkStep M T O PS st i p).chunks.length = st.chunks.length + 1 := by
      rw [hstep]
      simp
    rw [hclen] at hlt hco
    refine ⟨hlt, ?_⟩
    rw [hco]
    have hacc : (chunkStep M T O PS st i p).acc =
        (List.range' (i + 1 - k) k).map (fun j => PS.getD j default) := by
      rw [hstep]; exact hseed
    rw [hacc, joinContent_append _ _ hwne]
    exact ⟨_, rfl⟩

/-- C4 witness: two body paragraphs, bound 1 token, overlap 1; the flush at
index 1 reseeds with paragraph 1, and the final chunk starts with its text. -/
theorem spec_C4_witness :
    (get_style_config (fun _ => none) "b").isIgnored = false ∧
    headingLevelTruthy (get_style_config (fun _ => none) "b").headingLevel = none ∧
    (estimate_tokens (joinContent ([⟨"aaaa", "b"⟩] ++ [(⟨"bbbb", "b"⟩ : Para)])) : Int) > 1 ∧
    (1 : Int) = ((1 : Nat) : Int) ∧
    (chunkStep (fun _ => none) 1 1 [⟨"aaaa", "b"⟩, ⟨"bbbb", "b"⟩]
        ⟨[], [], [⟨"aaaa", "b"⟩], 0⟩ 1 ⟨"bbbb", "b"⟩).acc =
      (List.range' 1 1).map
        (fun j => ([⟨"aaaa", "b"⟩, ⟨"bbbb", "b"⟩] : List Para).getD j default) ∧
    (0 : Nat) + 1 <
      (final_flush [⟨"aaaa", "b"⟩, ⟨"bbbb", "b"⟩]
        (chunkLoop (fun _ => none) 1 1 [⟨"aaaa", "b"⟩, ⟨"bbbb", "b"⟩] 2 []
          (chunkStep (fun _ => none) 1 1 [⟨"aaaa", "b"⟩, ⟨"bbbb", "b"⟩]
            ⟨[], [], [⟨"aaaa", "b"⟩], 0⟩ 1 ⟨"bbbb", "b"⟩))).chunks.length ∧
    ∃ tail,
      ((final_flush [⟨"aaaa", "b"⟩, ⟨"bbbb", "b"⟩]
          (chunkLoop (fun _ => none) 1 1 [⟨"aaaa", "b"⟩, ⟨"bbbb", "b"⟩] 2 []
            (chunkStep (fun _ => none) 1 1 [⟨"aaaa", "b"⟩, ⟨"bbbb", "b"⟩]
              ⟨[], [], [⟨"aaaa", "b"⟩], 0⟩ 1 ⟨"bbbb", "b"⟩))).chunks.getD
        ((0 : Nat) + 1) default).content =
      joinContent ((List.range' 1 1).map
        (fun j => ([⟨"aaaa", "b"⟩, ⟨"bbbb", "b"⟩] : List Para).getD j default)) ++ tail := by
  have h := spec_C4 (fun _ => none) 1 1 [⟨"aaaa", "b"⟩, ⟨"bbbb", "b"⟩]
    ⟨[], [], [⟨"aaaa", "b"⟩], 0⟩ 1 1 ⟨"bbbb", "b"⟩ rfl rfl (by decide) rfl
    (by decide) (by decide) (by decide) (by decide) (by decide)
  exact ⟨rfl, rfl, by decide, rfl, h.1, (h.2.2 [] 2).1, (h.2.2 [] 2).2⟩

/-- C5 (corrected). The `-1` heading-level sentinel is handled by the
caller (`process_document` builds the mapping from configured DB styles and
turns `heading_level == -1` into an `isIgnored` entry whose paragraphs the
chunker then skips); inside `chunk_document` itself a mapping entry with
`headingLevel = -1` is truthy and is treated as a heading, not ignored. -/
theorem spec_C5 (dbs : List DbStyle) (name : String)
    (hflt : dbs.filter (fun s => s.style_name == name) =
      [⟨name, true, some (-1)⟩]) :
    build_db_style_mapping dbs name = some ⟨none, false, true⟩ ∧
    ∀ (T O : Int) (PS : List Para) (st : ChunkerState) (i : Nat) (p : Para),
      p.style = name →
      chunkStep (build_db_style_mapping dbs) T O PS st i p = st := by
  have hmap := db_foldl_sentinel name dbs (fun _ => none) hflt
  refine ⟨hmap, fun T O PS st i p hp => ?_⟩
  apply step_ignored
  unfold get_style_config
  rw [hp, show build_db_style_mapping dbs name = some ⟨none, false, true⟩ from hmap]
  rfl

/-- C5 counterexample: a style mapped (directly in the mapping given to
`chunk_document`) to `headingLevel = -1` is NOT ignored: its paragraph
starts the chunk, its text is in the chunk content, and it is pushed onto
the hierarchy stack with level `-1`. -/
theorem spec_C5_counterexample :
    (chunk_document [⟨"T", "s"⟩, ⟨"body", "b"⟩]
      (fun s => if s = "s" then some ⟨some (-1), false, false⟩ else none)
      500 1).length = 1 ∧
    ((chunk_document [⟨"T", "s"⟩, ⟨"body", "b"⟩]
      (fun s => if s = "s" then some ⟨some (-1), false, false⟩ else none)
      500 1).getD 0 default).content = "T\n\nbody" ∧
    ((chunk_document [⟨"T", "s"⟩, ⟨"body", "b"⟩]
      (fun s => if s = "s" then some ⟨some (-1), false, false⟩ else none)
      500 1).getD 0 default).hierarchyJson = [⟨"T", -1⟩] := by
  refine ⟨by decide, by decide, by decide⟩

/-- C5 witness: one configured DB row `("Quote", configured, -1)` maps
`"Quote"` to an ignored entry, and a `"Quote"`-styled paragraph leaves the
chunker state unchanged. -/
theorem spec_C5_witness :
    ([⟨"Quote", true, some (-1)⟩] : List DbStyle).filter
      (fun s => s.style_name == "Quote") = [⟨"Quote", true, some (-1)⟩] ∧
    build_db_style_mapping [⟨"Quote", true, some (-1)⟩] "Quote" =
      some ⟨none, false, true⟩ ∧
    chunkStep (build_db_style_mapping [⟨"Quote", true, some (-1)⟩]) 500 1
      [⟨"q", "Quote"⟩] ⟨[], [], [⟨"x", "b"⟩], 0⟩ 5 ⟨"q", "Quote"⟩ =
      ⟨[], [], [⟨"x", "b"⟩], 0⟩ := by
  have h := spec_C5 [⟨"Quote", true, some (-1)⟩] "Quote" (by decide)
  exact ⟨by decide, h.1,
    h.2 500 1 [⟨"q", "Quote"⟩] ⟨[], [], [⟨"x", "b"⟩], 0⟩ 5 ⟨"q", "Quote"⟩ rfl⟩

/-- C6 (corrected). A NEGATIVE `maxChunkTokens` (with no overlap and no
heading-mapped paragraphs) makes every body paragraph trigger an immediate
flush, so the run degenerates to one chunk per non-ignored paragraph, each
containing exactly that paragraph's text; `maxChunkTokens = 0` does not
behave this way because a short paragraph can have token estimate 0, which
is not `> 0`. -/
theorem spec_C6 (PS : List Para) (M : String → Option StyleConfig) (T O : Int)
    (hT : T < 0) (hO : ¬ O > 0)
    (hhead : ∀ q ∈ PS,
      headingLevelTruthy (get_style_config M q.style).headingLevel = none) :
    (chunk_document PS M T O).map (fun c => c.content) =
      (PS.filter (fun q => !(get_style_config M q.style).isIgnored)).map
        (fun q => q.text) := by
  unfold chunk_document
  obtain ⟨h1, h2⟩ := degenerate_loop M T O PS hT hO hhead PS 0 ⟨[], [], [], 0⟩
    (List.Subset.refl PS) rfl
  unfold final_flush
  rw [if_pos (by rw [h1]; rfl)]
  rw [h2]
  simp

/-- C6 counterexample: with `maxChunkTokens = 0` (non-positive) and two
short body paragraphs, the first body paragraph does NOT immediately
trigger a flush: the run returns one chunk holding both paragraphs. -/
theorem spec_C6_counterexample :
    (chunk_document [⟨"a", "b"⟩, ⟨"b", "b"⟩] (fun _ => none) 0 0).length = 1 ∧
    ((chunk_document [⟨"a", "b"⟩, ⟨"b", "b"⟩] (fun _ => none) 0 0).getD 0
      default).content = "a\n\nb" := by
  refine ⟨by decide, by decide⟩

/-- C6 witness: the amended statement at `maxChunkTokens = -1` with an
ignored middle paragraph: one chunk per body paragraph. -/
theorem spec_C6_witness :
    ((-1 : Int) < 0) ∧ (¬ (0 : Int) > 0) ∧
    (∀ q ∈ ([⟨"a", "b"⟩, ⟨"zzz", "ig"⟩, ⟨"b", "b"⟩] : List Para),
      headingLevelTruthy (get_style_config
        (fun s => if s = "ig" then some ⟨none, false, true⟩ else none)
        q.style).headingLevel = none) ∧
    (chunk_document [⟨"a", "b"⟩, ⟨"zzz", "ig"⟩, ⟨"b", "b"⟩]
      (fun s => if s = "ig" then some ⟨none, false, true⟩ else none)
      (-1) 0).map (fun c => c.content) =
      (([⟨"a", "b"⟩, ⟨"zzz", "ig"⟩, ⟨"b", "b"⟩] : List Para).filter
        (fun q => !(get_style_config
          (fun s => if s = "ig" then some ⟨none, false, true⟩ else none)
          q.style).isIgnored)).map (fun q => q.text) :=
  ⟨by omega, by omega, by decide,
    spec_C6 [⟨"a", "b"⟩, ⟨"zzz", "ig"⟩, ⟨"b", "b"⟩]
      (fun s => if s = "ig" then some ⟨none, false, true⟩ else none)
      (-1) 0 (by omega) (by omega) (by decide)⟩

/-- C9 (confirmed). The chunk fingerprint is a pure function of content:
any two chunks from any runs with equal content have equal `chunkHash`, and
the hash is the first 16 characters of the SHA-256 hex digest of the UTF-8
encoded content — 16 characters, all from the lower-case hex alphabet. -/
theorem spec_C9 (PS1 PS2 : List Para) (M1 M2 : String → Option StyleConfig)
    (T1 T2 O1 O2 : Int) (c1 c2 : Chunk)
    (h1 : c1 ∈ chunk_document PS1 M1 T1 O1)
    (h2 : c2 ∈ chunk_document PS2 M2 T2 O2)
    (hco : c1.content = c2.content) :
    c1.chunkHash = c2.chunkHash ∧
    c1.chunkHash = takeChars (sha256hexdigest (utf8Bytes c1.content)) 16 ∧
    c1.chunkHash.length = 16 ∧
    ∀ ch ∈ c1.chunkHash.data, ch ∈ hexAlphabet := by
  have e1 := ((chunksOK_chunk_document PS1 M1 T1 O1).2 c1 h1).2
  have e2 := ((chunksOK_chunk_document PS2 M2 T2 O2).2 c2 h2).2
  refine ⟨?_, e1, ?_, ?_⟩
  · rw [e1, e2, hco]
  · rw [e1]
    exact chunk_hash_length _
  · rw [e1]
    exact chunk_hash_hex _

set_option maxRecDepth 10000 in
/-- C9 witness: the same single-paragraph document chunked under two
different configurations yields chunks with equal content and equal hash. -/
theorem spec_C9_witness :
    ((chunk_document [⟨"dup", "b"⟩] (fun _ => none) 500 1).getD 0 default ∈
      chunk_document [⟨"dup", "b"⟩] (fun _ => none) 500 1) ∧
    ((chunk_document [⟨"dup", "b"⟩] (fun _ => none) 300 0).getD 0 default ∈
      chunk_document [⟨"dup", "b"⟩] (fun _ => none) 300 0) ∧
    ((chunk_document [⟨"dup", "b"⟩] (fun _ => none) 500 1).getD 0 default).content =
      ((chunk_document [⟨"dup", "b"⟩] (fun _ => none) 300 0).getD 0 default).content ∧
    ((chunk_document [⟨"dup", "b"⟩] (fun _ => none) 500 1).getD 0 default).chunkHash =
      ((chunk_document [⟨"dup", "b"⟩] (fun _ => none) 300 0).getD 0 default).chunkHash :=
  ⟨by decide, by decide, by decide,
    (spec_C9 [⟨"dup", "b"⟩] [⟨"dup", "b"⟩] (fun _ => none) (fun _ => none)
      500 300 1 0 _ _ (by decide) (by decide) (by decide)).1⟩

/-- C10 (confirmed). Reconstructing the tree from the two chunks of
Scenario D yields a root with exactly one child "Part 1" (level 1) holding
the first chunk's preview directly, with one child "Section A" (level 2)
holding the second chunk's preview. -/
theorem spec_C10 :
    get_chunk_tree [⟨1, "c1", [⟨"Part 1", 1⟩], 10⟩,
        ⟨2, "c2", [⟨"Part 1", 1⟩, ⟨"Section A", 2⟩], 20⟩] =
      TreeNode.mk "root" none
        [TreeNode.mk "Part 1" (some 1)
          [TreeNode.mk "Section A" (some 2) [] [⟨2, "c2", 20⟩]]
          [⟨1, "c1", 10⟩]]
        [] := rfl

end BfnAI
